import Mathlib

/-!
Shallow embedding of the `ishbir/imap-server` repository (Go) for checking its
natural-language specification.  Strings are modelled as `List Char`; the
helper `str` injects Lean string literals.  Pure functions of the source are
translated directly; the per-connection state is a structure with explicit
state passing.
-/

deriving instance DecidableEq for Except

namespace Imap

/-- Helper turning a Lean string literal into the `List Char` representation
used throughout the embedding. -/
def str (s : String) : List Char := s.data

/- ### Sequence numbers, ranges and sets (`types/sequence_numbers.go`)

The implementation file `types/sequence_numbers.go` is not part of the source
slice (only its test file is), so the three parsers below are modelled from
the specification, §4.A. -/

/-- Nonempty all-digit string, the decimal alternative of `seq-number`. -/
def isNumericL (s : List Char) : Bool := !s.isEmpty && s.all Char.isDigit

/-- Decimal value of a digit string (the model of Go `strconv.Atoi` on the
numeric strings the grammar admits). -/
def toNatL (s : List Char) : Nat := s.foldl (fun n c => 10 * n + (c.toNat - 48)) 0

/-- Split a character list at the first occurrence of `sep`; `none` when
`sep` does not occur (the model of the split on the first `:`). -/
def splitFirst (sep : Char) : List Char → Option (List Char × List Char)
  | [] => none
  | c :: rest =>
    if c = sep then some ([], rest)
    else match splitFirst sep rest with
      | none => none
      | some (a, b) => some (c :: a, b)

/-- Modelled from the spec: `SequenceNumber` of `types/sequence_numbers.go`
is missing from the source slice.  Per §3 it is a string rendered as its
decimal form, `*`, or the empty string. -/
structure SequenceNumber where
  chars : List Char
deriving DecidableEq, Repr

/-- Modelled from the spec: `Last()` holds exactly for the `*` sentinel. -/
def SequenceNumber.Last (s : SequenceNumber) : Bool := s.chars == ['*']

/-- Modelled from the spec: `Nil()` holds exactly for the empty string. -/
def SequenceNumber.Nil (s : SequenceNumber) : Bool := s.chars == []

/-- Modelled from the spec: `Value()` errors when the number is last or nil
(and on any non-decimal content, as Go `strconv.Atoi` would), and otherwise
returns the decimal value. -/
def SequenceNumber.Value (s : SequenceNumber) : Except Unit Nat :=
  if s.Last || s.Nil then .error ()
  else if isNumericL s.chars then .ok (toNatL s.chars)
  else .error ()

/-- Modelled from the spec: `SequenceRange` is an ordered pair of sequence
numbers where `Max` may be absent (the empty string). -/
structure SequenceRange where
  Min : SequenceNumber
  Max : SequenceNumber
deriving DecidableEq, Repr

/-- A side of a `seq-range`: the `*` sentinel or a nonempty decimal string. -/
def validSeqNum (s : List Char) : Bool := s == ['*'] || isNumericL s

/-- Modelled from the spec: `InterpretMessageRange` of
`types/sequence_numbers.go` is missing from the source slice.  Per §4.A:
split on the first `:`; with no `:` the whole string is the min and max is
absent; with both sides present they must each be `*` or numeric, `*:*`
canonicalizes to `{*, absent}`, a `*` side moves to the max, and two numeric
sides are swapped when min exceeds max; anything else is an invalid-range
error carrying the offending input. -/
def InterpretMessageRange (s : List Char) : Except (List Char) SequenceRange :=
  match splitFirst ':' s with
  | none => if validSeqNum s then .ok ⟨⟨s⟩, ⟨[]⟩⟩ else .error s
  | some (a, b) =>
    if validSeqNum a && validSeqNum b then
      if a == ['*'] && b == ['*'] then .ok ⟨⟨['*']⟩, ⟨[]⟩⟩
      else if a == ['*'] then .ok ⟨⟨b⟩, ⟨['*']⟩⟩
      else if b == ['*'] then .ok ⟨⟨a⟩, ⟨['*']⟩⟩
      else if toNatL b < toNatL a then .ok ⟨⟨b⟩, ⟨a⟩⟩
      else .ok ⟨⟨a⟩, ⟨b⟩⟩
    else .error s

/-- Split on every comma, keeping empty parts (Go `strings.Split` with `,`). -/
def splitComma : List Char → List Char → List (List Char)
  | [], acc => [acc.reverse]
  | c :: rest, acc =>
    if c = ',' then acc.reverse :: splitComma rest []
    else splitComma rest (c :: acc)

/-- Parse every element of a comma-split list as a range, in order;
`none` as soon as one element fails. -/
def parseRanges : List (List Char) → Option (List SequenceRange)
  | [] => some []
  | e :: rest =>
    match InterpretMessageRange e, parseRanges rest with
    | .ok r, some rs => some (r :: rs)
    | _, _ => none

/-- Modelled from the spec: `InterpretSequenceSet` of
`types/sequence_numbers.go` is missing from the source slice.  Per §4.A:
split on `,`, parse each element as a range preserving order; any element
failure surfaces as an invalid-sequence-set error carrying the whole
input. -/
def InterpretSequenceSet (s : List Char) : Except (List Char) (List SequenceRange) :=
  match parseRanges (splitComma s []) with
  | some rs => .ok rs
  | none => .error s

/- ### Lemmas about the range parser -/

theorem splitFirst_eq_none (sep : Char) (s : List Char) (h : ∀ c ∈ s, c ≠ sep) :
    splitFirst sep s = none := by
  induction s with
  | nil => rfl
  | cons c rest ih =>
    have hc : c ≠ sep := h c (by simp)
    have hrest : splitFirst sep rest = none := ih (fun x hx => h x (by simp [hx]))
    simp [splitFirst, hc, hrest]

theorem splitFirst_append (sep : Char) (a b : List Char) (h : ∀ c ∈ a, c ≠ sep) :
    splitFirst sep (a ++ sep :: b) = some (a, b) := by
  induction a with
  | nil => simp [splitFirst]
  | cons c rest ih =>
    have hc : c ≠ sep := h c (by simp)
    have hrest := ih (fun x hx => h x (by simp [hx]))
    simp [splitFirst, hc, hrest]

theorem isNumericL_ne_colon {s : List Char} (h : isNumericL s = true) :
    ∀ c ∈ s, c ≠ ':' := by
  simp only [isNumericL, Bool.and_eq_true, List.all_eq_true] at h
  intro c hc heq
  have := h.2 c hc
  subst heq
  simp [Char.isDigit] at this

theorem isNumericL_ne_star {s : List Char} (h : isNumericL s = true) : s ≠ ['*'] := by
  intro heq
  subst heq
  simp only [isNumericL, Bool.and_eq_true, List.all_eq_true] at h
  have := h.2 '*' (by simp)
  simp [Char.isDigit] at this

theorem validSeqNum_ne_colon {s : List Char} (h : validSeqNum s = true) :
    ∀ c ∈ s, c ≠ ':' := by
  simp only [validSeqNum, Bool.or_eq_true, beq_iff_eq] at h
  rcases h with h | h
  · subst h
    intro c hc
    simp at hc
    subst hc
    decide
  · exact isNumericL_ne_colon h

theorem validSeqNum_of_numeric {s : List Char} (h : isNumericL s = true) :
    validSeqNum s = true := by
  simp [validSeqNum, h]

theorem imr_no_colon {s : List Char} (h : validSeqNum s = true) :
    InterpretMessageRange s = .ok ⟨⟨s⟩, ⟨[]⟩⟩ := by
  unfold InterpretMessageRange
  rw [splitFirst_eq_none ':' s (validSeqNum_ne_colon h)]
  simp [h]

theorem imr_two_numeric {a b : List Char} (ha : isNumericL a = true)
    (hb : isNumericL b = true) :
    InterpretMessageRange (a ++ ':' :: b) =
      (if toNatL b < toNatL a then .ok ⟨⟨b⟩, ⟨a⟩⟩ else .ok ⟨⟨a⟩, ⟨b⟩⟩) := by
  unfold InterpretMessageRange
  rw [splitFirst_append ':' a b (isNumericL_ne_colon ha)]
  have ha2 : (a == ['*']) = false := by
    simp only [beq_eq_false_iff_ne, ne_eq]
    exact isNumericL_ne_star ha
  have hb2 : (b == ['*']) = false := by
    simp only [beq_eq_false_iff_ne, ne_eq]
    exact isNumericL_ne_star hb
  simp [validSeqNum_of_numeric ha, validSeqNum_of_numeric hb, ha2, hb2]

theorem imr_star_numeric {n : List Char} (hn : isNumericL n = true) :
    InterpretMessageRange ('*' :: ':' :: n) = .ok ⟨⟨n⟩, ⟨['*']⟩⟩ := by
  unfold InterpretMessageRange
  have hs : splitFirst ':' ('*' :: ':' :: n) = some (['*'], n) := by
    simp [splitFirst]
  rw [hs]
  have hn2 : (n == ['*']) = false := by
    simp only [beq_eq_false_iff_ne, ne_eq]
    exact isNumericL_ne_star hn
  simp [validSeqNum, hn, hn2]

theorem imr_numeric_star {n : List Char} (hn : isNumericL n = true) :
    InterpretMessageRange (n ++ [':', '*']) = .ok ⟨⟨n⟩, ⟨['*']⟩⟩ := by
  unfold InterpretMessageRange
  have hs : splitFirst ':' (n ++ ':' :: ['*']) = some (n, ['*']) :=
    splitFirst_append ':' n ['*'] (isNumericL_ne_colon hn)
  rw [show n ++ [':', '*'] = n ++ ':' :: ['*'] from rfl, hs]
  have hn2 : (n == ['*']) = false := by
    simp only [beq_eq_false_iff_ne, ne_eq]
    exact isNumericL_ne_star hn
  simp [validSeqNum, hn, hn2]

theorem imr_ok_or_error_input (s : List Char) :
    (∃ r, InterpretMessageRange s = .ok r) ∨ InterpretMessageRange s = .error s := by
  unfold InterpretMessageRange
  cases h : splitFirst ':' s with
  | none =>
    by_cases hv : validSeqNum s = true
    · exact Or.inl ⟨⟨⟨s⟩, ⟨[]⟩⟩, by simp [hv]⟩
    · simp only [Bool.not_eq_true] at hv
      exact Or.inr (by simp [hv])
  | some p =>
    rcases p with ⟨a, b⟩
    by_cases h1 : (validSeqNum a && validSeqNum b) = true
    · simp only [h1, if_true]
      split_ifs <;> exact Or.inl ⟨_, rfl⟩
    · simp only [Bool.not_eq_true] at h1
      exact Or.inr (by simp [h1])

/-- C1: `InterpretMessageRange` canonicalizes every well-formed range string:
with no `:` the whole string becomes `Min` and `Max` is absent; with two
numeric sides and `min > max` the sides are swapped (and kept when
`min ≤ max`); `*:*` yields `{*, absent}`; `*:N` moves the `*` to `Max`;
`N:*` is unchanged; other content such as `5*`, `*5*` or alphabetic input
returns an invalid-range error carrying the offending input, and every error
the parser returns carries the full input. -/
theorem c1_interpretMessageRange_canonicalizes :
    (∀ s, validSeqNum s = true → InterpretMessageRange s = .ok ⟨⟨s⟩, ⟨[]⟩⟩) ∧
    (∀ a b, isNumericL a = true → isNumericL b = true → toNatL b < toNatL a →
      InterpretMessageRange (a ++ ':' :: b) = .ok ⟨⟨b⟩, ⟨a⟩⟩) ∧
    (∀ a b, isNumericL a = true → isNumericL b = true → toNatL a ≤ toNatL b →
      InterpretMessageRange (a ++ ':' :: b) = .ok ⟨⟨a⟩, ⟨b⟩⟩) ∧
    InterpretMessageRange (str "*:*") = .ok ⟨⟨str "*"⟩, ⟨str ""⟩⟩ ∧
    (∀ n, isNumericL n = true →
      InterpretMessageRange ('*' :: ':' :: n) = .ok ⟨⟨n⟩, ⟨['*']⟩⟩) ∧
    (∀ n, isNumericL n = true →
      InterpretMessageRange (n ++ [':', '*']) = .ok ⟨⟨n⟩, ⟨['*']⟩⟩) ∧
    InterpretMessageRange (str "5*") = .error (str "5*") ∧
    InterpretMessageRange (str "*5*") = .error (str "*5*") ∧
    InterpretMessageRange (str "hello") = .error (str "hello") ∧
    (∀ s, (∃ r, InterpretMessageRange s = .ok r) ∨
      InterpretMessageRange s = .error s) := by
  refine ⟨fun s hs => imr_no_colon hs, fun a b ha hb hlt => ?_, fun a b ha hb hle => ?_,
    by decide, fun n hn => imr_star_numeric hn, fun n hn => imr_numeric_star hn,
    by decide, by decide, by decide, imr_ok_or_error_input⟩
  · rw [imr_two_numeric ha hb, if_pos hlt]
  · rw [imr_two_numeric ha hb, if_neg (Nat.not_lt.mpr hle)]

/-- Witness for C1 at the concrete test vectors of the repository. -/
theorem c1_interpretMessageRange_canonicalizes_witness :
    InterpretMessageRange (str "35") = .ok ⟨⟨str "35"⟩, ⟨str ""⟩⟩ ∧
    InterpretMessageRange (str "95:15") = .ok ⟨⟨str "15"⟩, ⟨str "95"⟩⟩ ∧
    InterpretMessageRange (str "15:95") = .ok ⟨⟨str "15"⟩, ⟨str "95"⟩⟩ ∧
    InterpretMessageRange (str "*:16") = .ok ⟨⟨str "16"⟩, ⟨str "*"⟩⟩ ∧
    InterpretMessageRange (str "53:*") = .ok ⟨⟨str "53"⟩, ⟨str "*"⟩⟩ :=
  ⟨c1_interpretMessageRange_canonicalizes.1 (str "35") (by decide),
   c1_interpretMessageRange_canonicalizes.2.1 (str "95") (str "15")
     (by decide) (by decide) (by decide),
   c1_interpretMessageRange_canonicalizes.2.2.1 (str "15") (str "95")
     (by decide) (by decide) (by decide),
   c1_interpretMessageRange_canonicalizes.2.2.2.2.1 (str "16") (by decide),
   c1_interpretMessageRange_canonicalizes.2.2.2.2.2.1 (str "53") (by decide)⟩

/- ### Lemmas about the sequence-set parser -/

theorem parseRanges_ok {es : List (List Char)} {rs : List SequenceRange}
    (h : parseRanges es = some rs) :
    List.Forall₂ (fun e r => InterpretMessageRange e = .ok r) es rs := by
  induction es generalizing rs with
  | nil =>
    simp only [parseRanges, Option.some.injEq] at h
    subst h
    exact List.Forall₂.nil
  | cons e rest ih =>
    unfold parseRanges at h
    cases him : InterpretMessageRange e with
    | error err => rw [him] at h; simp at h
    | ok r =>
      rw [him] at h
      cases hr : parseRanges rest with
      | none => rw [hr] at h; simp at h
      | some rs0 =>
        rw [hr] at h
        simp only [Option.some.injEq] at h
        subst h
        exact List.Forall₂.cons him (ih hr)

theorem parseRanges_none {es : List (List Char)} {e : List Char}
    {err : List Char} (hmem : e ∈ es)
    (hfail : InterpretMessageRange e = .error err) :
    parseRanges es = none := by
  induction es with
  | nil => simp at hmem
  | cons x rest ih =>
    unfold parseRanges
    rcases List.mem_cons.mp hmem with heq | hmem2
    · subst heq
      rw [hfail]
    · cases hx : InterpretMessageRange x with
      | error e2 => rfl
      | ok r => rw [ih hmem2]

/-- C4: `InterpretSequenceSet` splits on `,` and parses each element as a
range in input order, so `1,3,8:14,18:*` yields the ranges
`{1,absent}, {3,absent}, {8,14}, {18,*}` (the parser rule, not the asserted
test literal `{18,8}`); every successful parse is the element-wise range
parse of the comma-split input; any failing element (such as the element
`:8` of `1,3,:8`) makes the whole call return an invalid-sequence-set error
carrying the entire input string. -/
theorem c4_interpretSequenceSet :
    InterpretSequenceSet (str "1,3,8:14,18:*") =
      .ok [⟨⟨str "1"⟩, ⟨str ""⟩⟩, ⟨⟨str "3"⟩, ⟨str ""⟩⟩,
        ⟨⟨str "8"⟩, ⟨str "14"⟩⟩, ⟨⟨str "18"⟩, ⟨str "*"⟩⟩] ∧
    InterpretSequenceSet (str "1,3,:8") = .error (str "1,3,:8") ∧
    (∀ s e, InterpretSequenceSet s = .error e → e = s) ∧
    (∀ s rs, InterpretSequenceSet s = .ok rs →
      List.Forall₂ (fun e r => InterpretMessageRange e = .ok r)
        (splitComma s []) rs) ∧
    (∀ s e err, e ∈ splitComma s [] → InterpretMessageRange e = .error err →
      InterpretSequenceSet s = .error s) := by
  refine ⟨by decide, by decide, fun s e h => ?_, fun s rs h => ?_,
    fun s e err hmem hfail => ?_⟩
  · unfold InterpretSequenceSet at h
    cases hp : parseRanges (splitComma s []) with
    | none => rw [hp] at h; simpa using h.symm
    | some rs => rw [hp] at h; simp at h
  · unfold InterpretSequenceSet at h
    cases hp : parseRanges (splitComma s []) with
    | none => rw [hp] at h; simp at h
    | some rs0 =>
      rw [hp] at h
      simp only [Except.ok.injEq] at h
      subst h
      exact parseRanges_ok hp
  · unfold InterpretSequenceSet
    rw [parseRanges_none hmem hfail]

/-- Witness for C4: the order-preservation clause at `1,3,4:14` and the
failure-propagation clause at `1,3,:8:14,18:*`. -/
theorem c4_interpretSequenceSet_witness :
    List.Forall₂ (fun e r => InterpretMessageRange e = .ok r)
      (splitComma (str "1,3,4:14") [])
      [⟨⟨str "1"⟩, ⟨str ""⟩⟩, ⟨⟨str "3"⟩, ⟨str ""⟩⟩, ⟨⟨str "4"⟩, ⟨str "14"⟩⟩] ∧
    InterpretSequenceSet (str "1,3,:8:14,18:*") = .error (str "1,3,:8:14,18:*") :=
  ⟨c4_interpretSequenceSet.2.2.2.1 (str "1,3,4:14")
      [⟨⟨str "1"⟩, ⟨str ""⟩⟩, ⟨⟨str "3"⟩, ⟨str ""⟩⟩, ⟨⟨str "4"⟩, ⟨str "14"⟩⟩]
      (by decide),
   c4_interpretSequenceSet.2.2.2.2 (str "1,3,:8:14,18:*") (str ":8:14")
      (str ":8:14") (by decide) (by decide)⟩

/- ### Lemmas about sequence numbers -/

theorem isNumericL_ne_nil {s : List Char} (h : isNumericL s = true) : s ≠ [] := by
  intro heq
  subst heq
  simp [isNumericL] at h

/-- C5: `SequenceNumber` is a three-way tagged value: for `*`, `Last` is
true, `Nil` is false and `Value` errors; for the empty string, `Nil` is
true, `Last` is false and `Value` errors; for every decimal string `d`,
`Last` and `Nil` are false and `Value` returns the integer denoted by `d`
with no error. -/
theorem c5_sequenceNumber :
    SequenceNumber.Last ⟨str "*"⟩ = true ∧
    SequenceNumber.Nil ⟨str "*"⟩ = false ∧
    SequenceNumber.Value ⟨str "*"⟩ = .error () ∧
    SequenceNumber.Nil ⟨str ""⟩ = true ∧
    SequenceNumber.Last ⟨str ""⟩ = false ∧
    SequenceNumber.Value ⟨str ""⟩ = .error () ∧
    (∀ d, isNumericL d = true →
      SequenceNumber.Last ⟨d⟩ = false ∧
      SequenceNumber.Nil ⟨d⟩ = false ∧
      SequenceNumber.Value ⟨d⟩ = .ok (toNatL d)) := by
  refine ⟨by decide, by decide, by decide, by decide, by decide, by decide,
    fun d hd => ?_⟩
  have hstar : (d == ['*']) = false := by
    simp only [beq_eq_false_iff_ne, ne_eq]
    exact isNumericL_ne_star hd
  have hnil : (d == ([] : List Char)) = false := by
    simp only [beq_eq_false_iff_ne, ne_eq]
    exact isNumericL_ne_nil hd
  refine ⟨?_, ?_, ?_⟩
  · simp [SequenceNumber.Last, hstar]
  · simp [SequenceNumber.Nil, hnil]
  · simp [SequenceNumber.Value, SequenceNumber.Last, SequenceNumber.Nil,
      hstar, hnil, hd]

/-- Witness for C5 at the decimal string `56` of the repository's test. -/
theorem c5_sequenceNumber_witness :
    SequenceNumber.Last ⟨str "56"⟩ = false ∧
    SequenceNumber.Nil ⟨str "56"⟩ = false ∧
    SequenceNumber.Value ⟨str "56"⟩ = .ok 56 :=
  c5_sequenceNumber.2.2.2.2.2.2 (str "56") (by decide)

/- ### Connection state machine (`conn/conn.go`)

The connection is embedded as a structure holding the fields of `Conn` that
the claims concern; `User` and `SelectedMailbox` are abstracted to their
nil-ness.  Emitted responses are collected as explicit lists; a Go `panic`
is modelled as `none`. -/

inductive ConnState
  | StateNew
  | StateNotAuthenticated
  | StateAuthenticated
  | StateSelected
  | StateLoggedOut
deriving DecidableEq, Repr

/-- `WriteMode` is a named boolean in the source. -/
abbrev WriteMode := Bool

def ReadOnly : WriteMode := false

def ReadWrite : WriteMode := true

def lineEnding : List Char := ['\r', '\n']

structure Conn where
  state : ConnState
  mailboxWritable : WriteMode
  userSet : Bool
  selectedMailboxSet : Bool
deriving DecidableEq, Repr

def Conn.SetReadOnly (c : Conn) : Conn := { c with mailboxWritable := ReadOnly }

def Conn.SetReadWrite (c : Conn) : Conn := { c with mailboxWritable := ReadWrite }

/-- `SetState` assigns the state and then, as in the source, calls
`SetReadOnly` as a precaution against stale write access. -/
def Conn.SetState (c : Conn) (s : ConnState) : Conn :=
  Conn.SetReadOnly { c with state := s }

/-- Output of `writeResponse(seq, command)`: `*` replaces an empty tag, and
the line ending is appended when the command does not already end in it. -/
def writeResponse (seq command : List Char) : List Char :=
  (if seq = [] then ['*'] else seq) ++
    ' ' :: (if lineEnding.isSuffixOf command then command else command ++ lineEnding)

/-- First command of the registry whose pattern matches the request, with
its submatches; a matcher models `cmd.match.FindStringSubmatch`, the empty
list meaning no match.  The registry contents (`commands`) live outside the
source slice, so the dispatcher is parameterized over an arbitrary one. -/
def findCmd : List (List Char → List (List Char)) → Nat → List Char →
    Option (Nat × List (List Char))
  | [], _, _ => none
  | m :: rest, i, req =>
    if (m req).isEmpty then findCmd rest (i + 1) req else some (i, m req)

inductive DispatchResult
  | handled (idx : Nat) (caps : List (List Char))
  | responses (lines : List (List Char))
deriving DecidableEq, Repr

/-- `handleRequest` tries each registered command in order and invokes the
first match; when no pattern matches it emits
`writeResponse("", "BAD Command not understood")`. -/
def handleRequest (cmds : List (List Char → List (List Char)))
    (req : List Char) : DispatchResult :=
  match findCmd cmds 0 req with
  | some (i, ms) => .handled i ms
  | none => .responses [writeResponse [] (str "BAD Command not understood")]

/-- Leading run of non-space characters: the tag a client line carries, when
nonempty. -/
def extractTag (req : List Char) : Option (List Char) :=
  let t := req.takeWhile (fun c => c ≠ ' ')
  if t.isEmpty then none else some t

/-- `assertAuthenticated` as in the source: a `BAD not authenticated`
response outside Authenticated/Selected, a panic (`none`) when the state is
right but no user is set. -/
def Conn.assertAuthenticated (c : Conn) (seq : List Char) :
    Option (Bool × List (List Char × List Char)) :=
  if c.state ≠ .StateAuthenticated ∧ c.state ≠ .StateSelected then
    some (false, [(seq, str "BAD not authenticated")])
  else if c.userSet = false then none
  else some (true, [])

/-- `assertSelected` as in the source: authentication first, then the
Selected state, then (panic when no mailbox is set) the read-write check. -/
def Conn.assertSelected (c : Conn) (seq : List Char) (writable : WriteMode) :
    Option (Bool × List (List Char × List Char)) :=
  match c.assertAuthenticated seq with
  | none => none
  | some (false, rs) => some (false, rs)
  | some (true, _) =>
    if c.state ≠ .StateSelected then
      some (false, [(seq, str "BAD not selected")])
    else if c.selectedMailboxSet = false then none
    else if writable = ReadWrite ∧ c.mailboxWritable ≠ ReadWrite then
      some (false, [(seq, str "NO Selected mailbox is READONLY")])
    else some (true, [])

/- ### The read loop of `Start`

The loop is modelled over the finite list of lines the transport yields
before EOF; the handler's effect on the connection state is an arbitrary
parameter, since the registry is outside the source slice.  The result is
the list of lines passed to `handleRequest` and the final state. -/

def startLoop (h : ConnState → List Char → ConnState) :
    ConnState → List (List Char) → List (List Char) × ConnState
  | st, input =>
    if st = .StateLoggedOut then ([], st)
    else
      let st1 := if st = .StateNew then ConnState.StateNotAuthenticated else st
      match input with
      | [] => ([], .StateLoggedOut)
      | l :: rest =>
        let p := startLoop h (h st1 l) rest
        (l :: p.1, p.2)

/- ### Trace invariant for the write mode -/

inductive ConnOp
  | opSetState (s : ConnState)
  | opSetReadOnly
  | opSetReadWrite
deriving DecidableEq, Repr

def applyOp (c : Conn) : ConnOp → Conn
  | .opSetState s => c.SetState s
  | .opSetReadOnly => c.SetReadOnly
  | .opSetReadWrite => c.SetReadWrite

def applyOps (c : Conn) : List ConnOp → Conn
  | [] => c
  | op :: rest => applyOps (applyOp c op) rest

/-- An operation sequence that only enables write access while Selected. -/
def writesOnlyWhileSelected (c : Conn) : List ConnOp → Bool
  | [] => true
  | op :: rest =>
    (op != ConnOp.opSetReadWrite || c.state == ConnState.StateSelected) &&
      writesOnlyWhileSelected (applyOp c op) rest

/-- The invariant of §3 that read-write mode only occurs while Selected. -/
def writeModeInv (c : Conn) : Prop :=
  c.mailboxWritable = ReadWrite → c.state = .StateSelected

instance (c : Conn) : Decidable (writeModeInv c) := by
  unfold writeModeInv
  infer_instance

/- ### Server lifecycle (`imap.go`, the unnamed source file)

The listener is abstracted to an optional handle; the result of the
underlying bind and close calls are passed in explicitly. -/

structure Server where
  Addr : List Char
  listener : Option Nat
deriving DecidableEq, Repr

/-- `Server.Listen`: refuse when a listener already exists, otherwise bind
and store the listener on success. -/
def Server.Listen (s : Server) (bindResult : Except (List Char) Nat) :
    Server × Option (List Char) :=
  match s.listener with
  | some _ => (s, some (str "Listener already exists"))
  | none =>
    match bindResult with
    | .error e => (s, some e)
    | .ok l => ({ s with listener := some l }, none)

/-- `Server.Close`: error when never started; clear the listener field only
when the underlying close succeeds. -/
def Server.Close (s : Server) (closeResult : Option (List Char)) :
    Server × Option (List Char) :=
  match s.listener with
  | none => (s, some (str "Server not started"))
  | some _ =>
    match closeResult with
    | none => ({ s with listener := none }, none)
    | some e => (s, some e)

/- ### Parameter splitting (`util/formatting.go`)

`SplitParams` uses Go `strings.FieldsFunc` with a stateful closure: a single
boolean `paramsOpen` set by `[` and cleared by `]`.  `FieldsFunc` walks the
runes once in order, treats a rune as a separator when the closure returns
true, and drops empty fields; the fold below is that walk with the closure
state and the current field made explicit. -/

def bracketStep (opn : Bool) (c : Char) : Bool :=
  if c = '[' then true else if c = ']' then false else opn

def splitParamsAux : List Char → Bool → List Char → List (List Char)
  | [], _, acc => if acc.isEmpty then [] else [acc.reverse]
  | c :: rest, opn, acc =>
    if c = ' ' ∧ opn = false then
      if acc.isEmpty then splitParamsAux rest (bracketStep opn c) []
      else acc.reverse :: splitParamsAux rest (bracketStep opn c) []
    else splitParamsAux rest (bracketStep opn c) (c :: acc)

def SplitParams (s : List Char) : List (List Char) := splitParamsAux s false []

/-- Closure state after scanning a prefix of the input. -/
def openAfter (opn : Bool) : List Char → Bool
  | [] => opn
  | c :: rest => openAfter (bracketStep opn c) rest

theorem splitParamsAux_space_append (b : List Char) :
    ∀ (a : List Char) (opn : Bool) (acc : List Char),
      openAfter opn a = false →
      splitParamsAux (a ++ ' ' :: b) opn acc =
        splitParamsAux a opn acc ++ splitParamsAux b false [] := by
  intro a
  induction a with
  | nil =>
    intro opn acc h
    have hopn : opn = false := h
    subst hopn
    by_cases hacc : acc.isEmpty <;>
      simp [splitParamsAux, hacc, bracketStep]
  | cons c rest ih =>
    intro opn acc h
    have h2 : openAfter (bracketStep opn c) rest = false := h
    by_cases hc : c = ' ' ∧ opn = false
    · obtain ⟨hc1, hc2⟩ := hc
      subst hc1
      subst hc2
      by_cases hacc : acc.isEmpty <;>
        simp [splitParamsAux, hacc, ih (bracketStep false ' ') [] h2]
    · simp [splitParamsAux, hc, ih (bracketStep opn c) _ h2]

/-- C3 counterexample: on the nested input `A[B [C D] E F]` the space that
follows the inner `]` does split, because the closure tracks a single
boolean rather than a nesting depth, so the input is cut into three fields
instead of being preserved intact. -/
theorem c3_splitParams_nesting_counterexample :
    SplitParams (str "A[B [C D] E F]") =
      [str "A[B [C D]", str "E", str "F]"] ∧
    SplitParams (str "A[B [C D] E F]") ≠ [str "A[B [C D] E F]"] := by
  decide

/-- C3 (amended): `SplitParams` splits on exactly the spaces at which the
boolean bracket flag — set by `[`, cleared by `]`, with no nesting count —
is closed: around any such space the split is the concatenation of the
splits of the two sides, and a one-level bracketed region such as
`BODY[HEADER.FIELDS (FROM TO)]` is kept intact across its inner spaces,
while a space following an inner `]` inside an outer bracket pair does
split. -/
theorem c3_splitParams_flag :
    (∀ a b, openAfter false a = false →
      SplitParams (a ++ ' ' :: b) = SplitParams a ++ SplitParams b) ∧
    SplitParams (str "BODY[HEADER.FIELDS (FROM TO)] UID") =
      [str "BODY[HEADER.FIELDS (FROM TO)]", str "UID"] := by
  refine ⟨fun a b h => splitParamsAux_space_append b a false [] h, by decide⟩

/-- Witness for C3 (amended) at a closed space between two plain words. -/
theorem c3_splitParams_flag_witness :
    SplitParams (str "FLAGS" ++ ' ' :: str "UID") =
      SplitParams (str "FLAGS") ++ SplitParams (str "UID") :=
  c3_splitParams_flag.1 (str "FLAGS") (str "UID") (by decide)

/- ### CRLF counting, for the response-writer claim -/

/-- Number of (non-overlapping, leftmost) `CRLF` occurrences in a string. -/
def crlfCount : List Char → Nat
  | [] => 0
  | [_] => 0
  | c1 :: c2 :: rest =>
    if c1 = '\r' ∧ c2 = '\n' then crlfCount rest + 1 else crlfCount (c2 :: rest)

theorem crlfCount_append_crlf :
    ∀ cmd : List Char, crlfCount (cmd ++ lineEnding) = crlfCount cmd + 1
  | [] => by decide
  | [c] => by
    have h : ¬(c = '\r' ∧ ('\r' : Char) = '\n') := fun hx => by
      have := hx.2
      simp at this
    simp [crlfCount, lineEnding, h]
  | c1 :: c2 :: rest => by
    by_cases h : c1 = '\r' ∧ c2 = '\n'
    · obtain ⟨h1, h2⟩ := h
      subst h1
      subst h2
      simp [crlfCount, crlfCount_append_crlf rest]
    · have ih := crlfCount_append_crlf (c2 :: rest)
      rw [List.cons_append] at ih
      simp [crlfCount, h, ih]

theorem crlfCount_pos_of_suffix {cmd : List Char}
    (h : lineEnding.isSuffixOf cmd = true) : 0 < crlfCount cmd := by
  rw [List.isSuffixOf_iff_suffix] at h
  obtain ⟨p, hp⟩ := h
  subst hp
  rw [crlfCount_append_crlf]
  omega

theorem not_suffix_of_crlfCount_zero {cmd : List Char} (h : crlfCount cmd = 0) :
    lineEnding.isSuffixOf cmd = false := by
  cases hb : List.isSuffixOf lineEnding cmd with
  | false => rfl
  | true =>
    have := crlfCount_pos_of_suffix hb
    omega

theorem crlfCount_cons_not_cr {c : Char} (h : c ≠ '\r') :
    ∀ X, crlfCount (c :: X) = crlfCount X
  | [] => by simp [crlfCount]
  | d :: X2 => by
    have hx : ¬(c = '\r' ∧ d = '\n') := fun hc => h hc.1
    simp [crlfCount, hx]

theorem crlfCount_append_zero :
    ∀ (s t : List Char), crlfCount s = 0 → t.head? ≠ some '\n' →
      crlfCount (s ++ t) = crlfCount t
  | [], t, _, _ => rfl
  | [c], t, h, ht => by
    cases t with
    | nil => simp [crlfCount]
    | cons d t2 =>
      have hd : d ≠ '\n' := by
        intro he
        subst he
        simp at ht
      have hx : ¬(c = '\r' ∧ d = '\n') := fun hc => hd hc.2
      simp [crlfCount, hx]
  | c1 :: c2 :: s2, t, h, ht => by
    by_cases hc : c1 = '\r' ∧ c2 = '\n'
    · obtain ⟨h1, h2⟩ := hc
      subst h1
      subst h2
      simp [crlfCount] at h
    · have h2 : crlfCount (c2 :: s2) = 0 := by simpa [crlfCount, hc] using h
      have ih := crlfCount_append_zero (c2 :: s2) t h2 ht
      simpa [crlfCount, hc] using ih

/-- C6: `writeResponse seq command` emits one line `<prefix> <command>` with
exactly one terminating `CRLF`: the prefix is `*` when the tag is empty and
the tag otherwise; the `CRLF` is appended exactly when the command does not
already end with it, so the terminator is never doubled — in particular any
`CRLF`-free command yields output containing exactly one `CRLF`. -/
theorem c6_writeResponse :
    (∀ cmd, crlfCount cmd = 0 →
      writeResponse [] cmd = '*' :: ' ' :: (cmd ++ lineEnding)) ∧
    (∀ seq cmd, seq ≠ [] → crlfCount cmd = 0 →
      writeResponse seq cmd = seq ++ ' ' :: (cmd ++ lineEnding)) ∧
    (∀ seq cmd, lineEnding.isSuffixOf cmd = true →
      writeResponse seq cmd = (if seq = [] then ['*'] else seq) ++ ' ' :: cmd) ∧
    (∀ seq cmd, lineEnding.isSuffixOf (writeResponse seq cmd) = true) ∧
    (∀ seq cmd, crlfCount seq = 0 → crlfCount cmd = 0 →
      crlfCount (writeResponse seq cmd) = 1) := by
  refine ⟨fun cmd h => ?_, fun seq cmd hseq h => ?_, fun seq cmd h => ?_,
    fun seq cmd => ?_, fun seq cmd hseq hcmd => ?_⟩
  · simp [writeResponse, not_suffix_of_crlfCount_zero h]
  · simp [writeResponse, not_suffix_of_crlfCount_zero h, hseq]
  · simp [writeResponse, h]
  · unfold writeResponse
    rw [List.isSuffixOf_iff_suffix]
    have hsuf : lineEnding <:+
        (if lineEnding.isSuffixOf cmd then cmd else cmd ++ lineEnding) := by
      by_cases hc : lineEnding.isSuffixOf cmd
      · rw [if_pos hc]
        exact (List.isSuffixOf_iff_suffix).mp hc
      · rw [if_neg hc]
        exact List.suffix_append cmd lineEnding
    calc lineEnding
        <:+ (if lineEnding.isSuffixOf cmd then cmd else cmd ++ lineEnding) := hsuf
      _ <:+ _ := by
          rw [List.append_cons]
          exact List.suffix_append _ _
  · rw [show writeResponse seq cmd =
        (if seq = [] then ['*'] else seq) ++
          ' ' :: (cmd ++ lineEnding) from by
      simp [writeResponse, not_suffix_of_crlfCount_zero hcmd]]
    have hs : crlfCount (if seq = [] then ['*'] else seq) = 0 := by
      by_cases h0 : seq = []
      · simp [h0, crlfCount]
      · simpa [h0] using hseq
    rw [crlfCount_append_zero _ _ hs (by simp)]
    rw [crlfCount_cons_not_cr (by decide)]
    rw [crlfCount_append_crlf, hcmd]

/-- Witness for C6 at the untagged greeting and the tagged OK line. -/
theorem c6_writeResponse_witness :
    writeResponse [] (str "OK IMAP4rev1 Service Ready") =
      '*' :: ' ' :: (str "OK IMAP4rev1 Service Ready" ++ lineEnding) ∧
    writeResponse (str "a001") (str "OK LOGIN completed") =
      str "a001" ++ ' ' :: (str "OK LOGIN completed" ++ lineEnding) ∧
    crlfCount (writeResponse (str "a001") (str "OK LOGIN completed")) = 1 :=
  ⟨c6_writeResponse.1 (str "OK IMAP4rev1 Service Ready") (by decide),
   c6_writeResponse.2.1 (str "a001") (str "OK LOGIN completed")
     (by decide) (by decide),
   c6_writeResponse.2.2.2.2 (str "a001") (str "OK LOGIN completed")
     (by decide) (by decide)⟩

/- ### The dispatcher fallback -/

theorem findCmd_none {req : List Char} :
    ∀ (cmds : List (List Char → List (List Char))) (i : Nat),
      (∀ m ∈ cmds, m req = []) → findCmd cmds i req = none
  | [], _, _ => rfl
  | m :: rest, i, h => by
    have hm : m req = [] := h m (by simp)
    have hrest := findCmd_none rest (i + 1) (fun x hx => h x (by simp [hx]))
    simp [findCmd, hm, hrest]

/-- C2 counterexample: the line `a001 FOOBAR` carries an extractable tag,
yet the dispatcher's no-match fallback responds with the untagged line
`* BAD Command not understood` and not with the tagged form. -/
theorem c2_dispatcher_counterexample :
    extractTag (str "a001 FOOBAR") = some (str "a001") ∧
    handleRequest [] (str "a001 FOOBAR") =
      .responses [str "* BAD Command not understood" ++ lineEnding] ∧
    handleRequest [] (str "a001 FOOBAR") ≠
      .responses [str "a001 BAD Command not understood" ++ lineEnding] := by
  decide

/-- C2 (amended): when an incoming line matches no registered command
pattern, the dispatcher always responds with the single untagged line
`* BAD Command not understood`, whether or not a tag could be extracted
from the line. -/
theorem c2_dispatcher_unknown_untagged
    (cmds : List (List Char → List (List Char))) (req : List Char)
    (h : ∀ m ∈ cmds, m req = []) :
    handleRequest cmds req =
      .responses [str "* BAD Command not understood" ++ lineEnding] := by
  unfold handleRequest
  rw [findCmd_none cmds 0 h]
  decide

/-- Witness for C2 (amended) on an empty registry. -/
theorem c2_dispatcher_unknown_untagged_witness :
    handleRequest [] (str "a001 FOOBAR") =
      .responses [str "* BAD Command not understood" ++ lineEnding] :=
  c2_dispatcher_unknown_untagged [] (str "a001 FOOBAR") (by simp)

/- ### State transitions and the write-mode invariant -/

/-- C7: every `SetState` call, whatever the target state, leaves
`mailboxWritable = ReadOnly`; consequently along any operation sequence
that calls `SetReadWrite` only while Selected, the invariant that
read-write mode implies the Selected state is preserved. -/
theorem c7_setState_resets_writeMode :
    (∀ c s, (Conn.SetState c s).mailboxWritable = ReadOnly) ∧
    (∀ c ops, writeModeInv c → writesOnlyWhileSelected c ops = true →
      writeModeInv (applyOps c ops)) := by
  refine ⟨fun c s => rfl, fun c ops => ?_⟩
  induction ops generalizing c with
  | nil => exact fun h _ => h
  | cons op rest ih =>
    intro hinv hops
    simp only [writesOnlyWhileSelected, Bool.and_eq_true] at hops
    obtain ⟨hop, hrest⟩ := hops
    refine ih (applyOp c op) ?_ hrest
    cases op with
    | opSetState s =>
      intro hw
      simp [applyOp, Conn.SetState, Conn.SetReadOnly, ReadOnly, ReadWrite] at hw
    | opSetReadOnly =>
      intro hw
      simp [applyOp, Conn.SetReadOnly, ReadOnly, ReadWrite] at hw
    | opSetReadWrite =>
      intro _
      have hsel : c.state = ConnState.StateSelected := by simpa using hop
      simpa [applyOp, Conn.SetReadWrite] using hsel

/-- Witness for C7 along a concrete operation sequence that logs in,
selects, enables writing and then transitions away. -/
theorem c7_setState_resets_writeMode_witness :
    writeModeInv ⟨.StateNotAuthenticated, ReadOnly, false, false⟩ ∧
    writesOnlyWhileSelected ⟨.StateNotAuthenticated, ReadOnly, false, false⟩
      [ConnOp.opSetState .StateAuthenticated, ConnOp.opSetState .StateSelected,
        ConnOp.opSetReadWrite, ConnOp.opSetState .StateAuthenticated] = true ∧
    writeModeInv (applyOps ⟨.StateNotAuthenticated, ReadOnly, false, false⟩
      [ConnOp.opSetState .StateAuthenticated, ConnOp.opSetState .StateSelected,
        ConnOp.opSetReadWrite, ConnOp.opSetState .StateAuthenticated]) :=
  ⟨by decide, by decide,
   c7_setState_resets_writeMode.2 ⟨.StateNotAuthenticated, ReadOnly, false, false⟩
     [ConnOp.opSetState .StateAuthenticated, ConnOp.opSetState .StateSelected,
       ConnOp.opSetReadWrite, ConnOp.opSetState .StateAuthenticated]
     (by decide) (by decide)⟩

/- ### The read loop -/

theorem startLoop_loggedOut (h : ConnState → List Char → ConnState)
    (input : List (List Char)) :
    startLoop h .StateLoggedOut input = ([], .StateLoggedOut) := by
  simp [startLoop]

/-- C8: the read loop of `Start` dispatches no command once the state is
LoggedOut; at end of stream it sets LoggedOut and exits without dispatching;
a line whose handling reaches LoggedOut is the last line dispatched; the
loop always ends in LoggedOut and dispatches a prefix of the input
stream. -/
theorem c8_startLoop_stops_at_loggedOut :
    (∀ h input, startLoop h .StateLoggedOut input = ([], .StateLoggedOut)) ∧
    (∀ h st, startLoop h st [] = ([], .StateLoggedOut)) ∧
    (∀ h st l rest, st ≠ .StateLoggedOut →
      h (if st = .StateNew then .StateNotAuthenticated else st) l =
        .StateLoggedOut →
      startLoop h st (l :: rest) = ([l], .StateLoggedOut)) ∧
    (∀ h st input, (startLoop h st input).2 = .StateLoggedOut) ∧
    (∀ h st input, (startLoop h st input).1 <+: input) := by
  refine ⟨startLoop_loggedOut, fun h st => ?_, fun h st l rest hst hh => ?_,
    fun h st input => ?_, fun h st input => ?_⟩
  · by_cases hst : st = ConnState.StateLoggedOut <;> simp [startLoop, hst]
  · rw [startLoop, if_neg hst]
    simp only [hh, startLoop_loggedOut]
  · induction input generalizing st with
    | nil => by_cases hst : st = ConnState.StateLoggedOut <;> simp [startLoop, hst]
    | cons l rest ih =>
      by_cases hst : st = ConnState.StateLoggedOut
      · simp [startLoop, hst]
      · rw [startLoop, if_neg hst]
        exact ih _
  · induction input generalizing st with
    | nil => by_cases hst : st = ConnState.StateLoggedOut <;> simp [startLoop, hst]
    | cons l rest ih =>
      by_cases hst : st = ConnState.StateLoggedOut
      · simp [startLoop, hst]
      · rw [startLoop, if_neg hst]
        exact List.cons_prefix_cons.mpr ⟨rfl, ih _⟩

/-- Witness for C8: a registry whose handling of `a1 LOGOUT` reaches
LoggedOut stops the loop before a queued second line. -/
theorem c8_startLoop_stops_at_loggedOut_witness :
    startLoop
      (fun _ l => if l = str "a1 LOGOUT" then ConnState.StateLoggedOut
        else ConnState.StateNotAuthenticated)
      .StateNotAuthenticated [str "a1 LOGOUT", str "a2 NOOP"] =
      ([str "a1 LOGOUT"], .StateLoggedOut) :=
  c8_startLoop_stops_at_loggedOut.2.2.1
    (fun _ l => if l = str "a1 LOGOUT" then ConnState.StateLoggedOut
      else ConnState.StateNotAuthenticated)
    .StateNotAuthenticated (str "a1 LOGOUT") [str "a2 NOOP"]
    (by decide) (by decide)

/- ### Precondition gates -/

/-- C9: `assertSelected` checks its preconditions in order, failing with
exactly one tagged response: `BAD not authenticated` outside
Authenticated/Selected; `BAD not selected` when Authenticated but not
Selected; `NO Selected mailbox is READONLY` when write access is required
but the mailbox mode is ReadOnly; and succeeds silently otherwise. -/
theorem c9_assertSelected_order (c : Conn) (seq : List Char) (w : WriteMode) :
    (c.state ≠ .StateAuthenticated ∧ c.state ≠ .StateSelected →
      c.assertSelected seq w =
        some (false, [(seq, str "BAD not authenticated")])) ∧
    (c.state = .StateAuthenticated → c.userSet = true →
      c.assertSelected seq w = some (false, [(seq, str "BAD not selected")])) ∧
    (c.state = .StateSelected → c.userSet = true →
      c.selectedMailboxSet = true → w = ReadWrite →
      c.mailboxWritable = ReadOnly →
      c.assertSelected seq w =
        some (false, [(seq, str "NO Selected mailbox is READONLY")])) ∧
    (c.state = .StateSelected → c.userSet = true →
      c.selectedMailboxSet = true →
      (w = ReadOnly ∨ c.mailboxWritable = ReadWrite) →
      c.assertSelected seq w = some (true, [])) := by
  refine ⟨fun h => ?_, fun hst hu => ?_, fun hst hu hm hw hro => ?_,
    fun hst hu hm hor => ?_⟩
  · simp [Conn.assertSelected, Conn.assertAuthenticated, h]
  · simp [Conn.assertSelected, Conn.assertAuthenticated, hst, hu]
  · simp [Conn.assertSelected, Conn.assertAuthenticated, hst, hu, hm, hw, hro,
      ReadOnly, ReadWrite]
  · rcases hor with hw | hrw
    · simp [Conn.assertSelected, Conn.assertAuthenticated, hst, hu, hm, hw,
        ReadOnly, ReadWrite]
    · simp [Conn.assertSelected, Conn.assertAuthenticated, hst, hu, hm, hrw,
        ReadOnly, ReadWrite]

/-- Witness for C9 exercising all four branches on concrete connections. -/
theorem c9_assertSelected_order_witness :
    Conn.assertSelected ⟨.StateNotAuthenticated, ReadOnly, false, false⟩
      (str "a1") ReadWrite =
      some (false, [(str "a1", str "BAD not authenticated")]) ∧
    Conn.assertSelected ⟨.StateAuthenticated, ReadOnly, true, false⟩
      (str "a2") ReadWrite =
      some (false, [(str "a2", str "BAD not selected")]) ∧
    Conn.assertSelected ⟨.StateSelected, ReadOnly, true, true⟩
      (str "a3") ReadWrite =
      some (false, [(str "a3", str "NO Selected mailbox is READONLY")]) ∧
    Conn.assertSelected ⟨.StateSelected, ReadWrite, true, true⟩
      (str "a4") ReadWrite = some (true, []) :=
  ⟨(c9_assertSelected_order ⟨.StateNotAuthenticated, ReadOnly, false, false⟩
      (str "a1") ReadWrite).1 (by decide),
   (c9_assertSelected_order ⟨.StateAuthenticated, ReadOnly, true, false⟩
      (str "a2") ReadWrite).2.1 rfl rfl,
   (c9_assertSelected_order ⟨.StateSelected, ReadOnly, true, true⟩
      (str "a3") ReadWrite).2.2.1 rfl rfl rfl rfl rfl,
   (c9_assertSelected_order ⟨.StateSelected, ReadWrite, true, true⟩
      (str "a4") ReadWrite).2.2.2 rfl rfl rfl (Or.inr rfl)⟩

/- ### Server lifecycle -/

/-- C10: `Server.Listen` on a server that already holds a listener returns
an error and leaves the server unchanged; `Server.Close` on a never-started
server returns an error; `Close` clears the listener field exactly when the
underlying close succeeds. -/
theorem c10_server_lifecycle (s : Server) :
    (∀ br l, s.listener = some l →
      Server.Listen s br = (s, some (str "Listener already exists"))) ∧
    (∀ cr, s.listener = none →
      Server.Close s cr = (s, some (str "Server not started"))) ∧
    (∀ l, s.listener = some l →
      Server.Close s none = ({ s with listener := none }, none)) ∧
    (∀ l e, s.listener = some l → Server.Close s (some e) = (s, some e)) := by
  refine ⟨fun br l h => ?_, fun cr h => ?_, fun l h => ?_, fun l e h => ?_⟩ <;>
    simp [Server.Listen, Server.Close, h]

/-- Witness for C10 on concrete started and unstarted servers. -/
theorem c10_server_lifecycle_witness :
    Server.Listen ⟨str ":143", some 7⟩ (.ok 9) =
      (⟨str ":143", some 7⟩, some (str "Listener already exists")) ∧
    Server.Close ⟨str ":143", none⟩ none =
      (⟨str ":143", none⟩, some (str "Server not started")) ∧
    Server.Close ⟨str ":143", some 7⟩ none = (⟨str ":143", none⟩, none) ∧
    Server.Close ⟨str ":143", some 7⟩ (some (str "busy")) =
      (⟨str ":143", some 7⟩, some (str "busy")) :=
  ⟨(c10_server_lifecycle ⟨str ":143", some 7⟩).1 (.ok 9) 7 rfl,
   (c10_server_lifecycle ⟨str ":143", none⟩).2.1 none rfl,
   (c10_server_lifecycle ⟨str ":143", some 7⟩).2.2.1 7 rfl,
   (c10_server_lifecycle ⟨str ":143", some 7⟩).2.2.2 7 (str "busy") rfl⟩

end Imap
